import Mathlib

/-!
Verification development for the `OutputPlugin` of the repack repository
(`src/packages/repack/src/webpack/plugins/OutputPlugin.ts`).

The plugin classifies every webpack chunk as either local (shipped inside the
native application package) or remote (hosted separately), injects a manifest
of local chunk identities into the entry bundle, and enqueues chunks for a
copy/distribution step.

Chunks are embedded as an arena: a compilation holds a list of chunk records,
and all cross references (initial closures, chunk-group membership) are indices
into that list.  The iteration order of `compilation.chunks` is the list order.
-/

namespace Repack

/-- Modelled from the spec: the `Rule` type lives in `src/types.ts`, which is not
under `src/`.  Per the spec (§4.2) a rule is "a literal-equality test, a pattern
test, or a predicate over the identity string"; a pattern test is a predicate on
strings, so patterns and predicates share the `pred` constructor. -/
inductive Rule where
  | lit : String → Rule
  | pred : (String → Bool) → Rule

/-- Evaluate a single rule on a chunk-identity string. -/
def ruleMatches (s : String) : Rule → Bool
  | .lit l => s == l
  | .pred f => f s

/-- `OutputPluginConfig` from `OutputPlugin.ts` (lines 10-31).  `platform` is an
`Option` so that a missing value (possible in untyped JS call sites) is
representable; `localChunks` normalises `Rule | Rule[]` to a list, `[]` when the
option is left unconfigured (the code reads `this.config.localChunks ?? []`). -/
structure OutputPluginConfig where
  platform : Option String
  devServerEnabled : Bool := false
  localChunks : List Rule := []
  remoteChunksOutput : Option String := none
  entry : Option String := none

/-- JS truthiness of the `platform` config field: `!this.config.platform` is
true exactly when the field is absent or the empty string. -/
def platformTruthy (cfg : OutputPluginConfig) : Bool :=
  match cfg.platform with
  | none => false
  | some s => s ≠ ""

/-- The `OutputPlugin` constructor (lines 45-49): throws
`Missing platform option in OutputPlugin` when `platform` is falsy. -/
def constructOutputPlugin (cfg : OutputPluginConfig) : Except String OutputPluginConfig :=
  if platformTruthy cfg then Except.ok cfg
  else Except.error "Missing `platform` option in `OutputPlugin`"

/-- A webpack chunk, as the plugin sees it: an optional `name`, an optional
stringified `id`, the ordered list of emitted files, and
`getAllInitialChunks()` as a list of arena indices. -/
structure Chunk where
  name : Option String := none
  id : Option String := none
  files : List String := []
  allInitialChunks : List Nat := []
  deriving Repr, DecidableEq, Inhabited

/-- A webpack chunk group: the `isInitial()` flag and its chunks (arena indices). -/
structure ChunkGroup where
  isInitial : Bool := false
  chunks : List Nat := []
  deriving Repr, DecidableEq, Inhabited

/-- The part of a webpack compilation the plugin consumes: the chunk arena
(iteration order of `compilation.chunks`) and the chunk groups. -/
structure Compilation where
  chunks : List Chunk := []
  chunkGroups : List ChunkGroup := []
  deriving Repr, DecidableEq, Inhabited

/-- Look a chunk up in the arena (out-of-range indices yield the default
record; webpack graphs never produce them). -/
def Compilation.chunk (comp : Compilation) (i : Nat) : Chunk :=
  comp.chunks.getD i default

/-- Chunk identity: `chunk.name ?? chunk.id?.toString()` (lines 149, 165, 186). -/
def chunkIdent (c : Chunk) : Option String :=
  c.name.orElse fun _ => c.id

/-- `isLocalChunk` (lines 105-111).  Modelled from the spec for the external
`webpack.ModuleFilenameHelpers.matchObject` call: a chunk identity matches when
some rule of the `include` list matches it, and (spec §4.2 edge case) "an
empty/undefined identity simply fails every rule match". -/
def isLocalChunk (rules : List Rule) : Option String → Bool
  | none => false
  | some s => rules.any (ruleMatches s)

/-- The configured entry chunk name, `'main'` by default (line 115). -/
def entryChunkName (cfg : OutputPluginConfig) : String :=
  cfg.entry.getD "main"

/-- Entry group resolution (lines 126-128): the first chunk group flagged initial. -/
def findEntryGroup (comp : Compilation) : Option ChunkGroup :=
  comp.chunkGroups.find? (fun g => g.isInitial)

/-- Entry chunk resolution (lines 129-131): within the entry group, the first
chunk whose `name` equals the configured entry name. -/
def findEntryChunk (comp : Compilation) (name : String) : Option Nat :=
  (findEntryGroup comp).bind fun g =>
    g.chunks.find? fun i => (comp.chunk i).name == some name

/-- State of the classification pass: the `sharedChunks` set (a JS `Set`, i.e.
insertion-ordered and duplicate-free) and the `localChunks` / `remoteChunks`
arrays (lines 116-117, 132). -/
structure ClassifyState where
  shared : List Nat := []
  locals : List Nat := []
  remotes : List Nat := []
  deriving Repr, DecidableEq, Inhabited

/-- `Set.add`: append unless already present (JS sets keep insertion order). -/
def pushShared (shared : List Nat) (s : Nat) : List Nat :=
  if s ∈ shared then shared else shared ++ [s]

/-- Lines 140-144: record every chunk of `closure` other than `i` itself into
the shared set. -/
def collectShared (shared : List Nat) (i : Nat) (closure : List Nat) : List Nat :=
  (closure.filter fun s => s ≠ i).foldl pushShared shared

/-- One iteration of the first classification loop (lines 134-154): skip chunks
already discovered as shared; otherwise record the chunk's initial closure as
shared, then classify the chunk itself (entry wins, then the local-chunk rules,
then remote by default). -/
def classifyStep (cfg : OutputPluginConfig) (comp : Compilation) (entry? : Option Nat)
    (st : ClassifyState) (i : Nat) : ClassifyState :=
  if i ∈ st.shared then st
  else
    let c := comp.chunk i
    let shared := collectShared st.shared i c.allInitialChunks
    if entry? = some i then
      { shared := shared, locals := st.locals ++ [i], remotes := st.remotes }
    else if isLocalChunk cfg.localChunks (chunkIdent c) then
      { shared := shared, locals := st.locals ++ [i], remotes := st.remotes }
    else
      { shared := shared, locals := st.locals, remotes := st.remotes ++ [i] }

/-- The first classification pass over all chunks in iteration order. -/
def firstPass (cfg : OutputPluginConfig) (comp : Compilation) (entry? : Option Nat) :
    ClassifyState :=
  (List.range comp.chunks.length).foldl (classifyStep cfg comp entry?) {}

/-- The first pass as run by the plugin, with the entry chunk resolved from the
compilation (lines 126-154). -/
def initialState (cfg : OutputPluginConfig) (comp : Compilation) : ClassifyState :=
  firstPass cfg comp (findEntryChunk comp (entryChunkName cfg))

/-- Lines 158-162: `localChunks.some(localChunk =>
[...localChunk.getAllInitialChunks()].includes(sharedChunk))`. -/
def usedByLocal (comp : Compilation) (locals : List Nat) (s : Nat) : Bool :=
  locals.any fun l => (comp.chunk l).allInitialChunks.contains s

/-- One iteration of the shared-chunk resolution loop (lines 157-171): a shared
chunk becomes local when some chunk currently in the local list has it in its
initial closure, or when it matches the local-chunk rules; remote otherwise. -/
def sharedStep (cfg : OutputPluginConfig) (comp : Compilation)
    (acc : List Nat × List Nat) (s : Nat) : List Nat × List Nat :=
  if usedByLocal comp acc.1 s || isLocalChunk cfg.localChunks (chunkIdent (comp.chunk s)) then
    (acc.1 ++ [s], acc.2)
  else
    (acc.1, acc.2 ++ [s])

/-- The shared-chunk resolution pass: fold the shared set (in insertion order)
over the local/remote lists produced by the first pass. -/
def secondPass (cfg : OutputPluginConfig) (comp : Compilation) (st : ClassifyState) :
    List Nat × List Nat :=
  st.shared.foldl (sharedStep cfg comp) (st.locals, st.remotes)

/-- The complete two-pass classification: final `(localChunks, remoteChunks)`. -/
def classifyChunks (cfg : OutputPluginConfig) (comp : Compilation) : List Nat × List Nat :=
  secondPass cfg comp (initialState cfg comp)

/-- Escape a string for inclusion in a JSON string literal (quote and backslash;
control-character escapes are not needed for chunk names appearing here). -/
def jsonEscape (s : String) : String :=
  String.join (s.data.map fun c =>
    if c = '\\' then "\\\\" else if c = '"' then "\\\"" else String.singleton c)

/-- A JSON string literal. -/
def jsonString (s : String) : String :=
  "\"" ++ jsonEscape s ++ "\""

/-- One element of the serialized local-chunk list: a missing identity renders
as `null` (as `JSON.stringify` does for `undefined` array elements). -/
def jsonChunkId : Option String → String
  | none => "null"
  | some s => jsonString s

/-- Lines 184-188: the prepended declaration
`var __CHUNKS__=` + `JSON.stringify(\x7b local: [...] \x7d)` + `;`. -/
def chunksDeclaration (idents : List (Option String)) : String :=
  "var __CHUNKS__=\x7b\"local\":[" ++ String.intercalate "," (idents.map jsonChunkId) ++ "]\x7d;"

/-- `compilation.updateAsset` (external to `src/`): replace the content of the
asset with the given name, leaving every other asset untouched.  The asset
store is a list of (name, content) pairs. -/
def updateAsset (assets : List (String × String)) (name : String) (f : String → String) :
    List (String × String) :=
  assets.map fun p => if p.1 = name then (p.1, f p.2) else p

/-- The shape of the decoded CLI options the plugin reads from the environment:
`cliOptions.arguments` is either a `start` (dev server) or `bundle` command. -/
inductive CliArguments where
  | start : CliArguments
  | bundle : CliArguments
  deriving Repr, DecidableEq

/-- The external build-invocation descriptor (`CliOptions`), reduced to the part
the classification/injection/distribution logic consumes. -/
structure CliOptions where
  arguments : CliArguments
  deriving Repr, DecidableEq

/-- Lines 62-68: the bypass guard.  `none` stands for a missing descriptor
(`JSON.parse` of the absent env var yields `null`). -/
def shouldBypass (cfg : OutputPluginConfig) (cli? : Option CliOptions) : Bool :=
  match cli? with
  | none => true
  | some o => (o.arguments == CliArguments.start) || cfg.devServerEnabled

/-- A chunk handed to an `AssetsCopyProcessor` queue, with its `isEntry` flag
(lines 226-228, 233). -/
structure EnqueuedChunk where
  chunk : Nat
  isEntry : Bool
  deriving Repr, DecidableEq

/-- Everything the plugin produces on a build it does not bypass and does not
abort: the final classification, the updated asset store, and the two
distribution queues. -/
structure BuildOutcome where
  locals : List Nat
  remotes : List Nat
  assets : List (String × String)
  localQueue : List EnqueuedChunk
  remoteQueue : List EnqueuedChunk
  deriving Repr, DecidableEq

/-- JS truthiness of the resolved `remoteChunksOutput` (line 231): configured
and non-empty.  (Path joining with the project root preserves truthiness, so it
is elided.) -/
def hasRemoteOutput (cfg : OutputPluginConfig) : Bool :=
  match cfg.remoteChunksOutput with
  | none => false
  | some s => s ≠ ""

/-- `OutputPlugin.apply` (lines 56-242), observable behaviour: `none` when the
bypass guard fires (no hooks registered, nothing changed); otherwise the
processing result — the `Cannot infer entry chunk` error (line 174) when the
entry chunk is unresolvable, which aborts before `updateAsset` and before any
chunk is enqueued, or the full outcome.  The manifest is prepended (with a
newline separator) to the entry chunk's first emitted file (lines 179-192); the
local queue flags exactly the entry chunk (line 227); the remote queue is built
only when a remote output directory is configured (lines 231-235). -/
def applyPlugin (cfg : OutputPluginConfig) (cli? : Option CliOptions)
    (comp : Compilation) (assets : List (String × String)) :
    Option (Except String BuildOutcome) :=
  if shouldBypass cfg cli? then none
  else
    let entry? := findEntryChunk comp (entryChunkName cfg)
    let lr := classifyChunks cfg comp
    some <| match entry? with
      | none => Except.error "Cannot infer entry chunk - this should have not happened."
      | some e =>
        let mainAsset := (comp.chunk e).files.headD ""
        let decl := chunksDeclaration (lr.1.map fun c => chunkIdent (comp.chunk c))
        Except.ok {
          locals := lr.1
          remotes := lr.2
          assets := updateAsset assets mainAsset fun src => decl ++ "\n" ++ src
          localQueue := lr.1.map fun c => { chunk := c, isEntry := c == e }
          remoteQueue :=
            if hasRemoteOutput cfg then lr.2.map fun c => { chunk := c, isEntry := false }
            else []
        }

/-- The asset store after the plugin ran: unchanged unless a successful outcome
replaced an asset. -/
def finalAssets (cfg : OutputPluginConfig) (cli? : Option CliOptions)
    (comp : Compilation) (assets : List (String × String)) : List (String × String) :=
  match applyPlugin cfg cli? comp assets with
  | some (Except.ok r) => r.assets
  | _ => assets

/-- The chunks enqueued for local distribution: empty unless the build produced
a successful outcome. -/
def enqueuedLocalChunks (cfg : OutputPluginConfig) (cli? : Option CliOptions)
    (comp : Compilation) (assets : List (String × String)) : List EnqueuedChunk :=
  match applyPlugin cfg cli? comp assets with
  | some (Except.ok r) => r.localQueue
  | _ => []

/-- The chunks enqueued for remote distribution: empty unless the build produced
a successful outcome. -/
def enqueuedRemoteChunks (cfg : OutputPluginConfig) (cli? : Option CliOptions)
    (comp : Compilation) (assets : List (String × String)) : List EnqueuedChunk :=
  match applyPlugin cfg cli? comp assets with
  | some (Except.ok r) => r.remoteQueue
  | _ => []

/-! ### Lemmas about the shared-chunk set -/

theorem pushShared_subset (sh : List Nat) (s : Nat) : sh ⊆ pushShared sh s := by
  unfold pushShared
  split
  · exact fun a ha => ha
  · exact List.subset_append_left sh [s]

theorem mem_pushShared {sh : List Nat} {s a : Nat} :
    a ∈ pushShared sh s ↔ a ∈ sh ∨ a = s := by
  unfold pushShared
  split
  · rename_i h
    constructor
    · exact Or.inl
    · rintro (ha | rfl)
      · exact ha
      · exact h
  · simp [List.mem_append]

theorem pushShared_nodup {sh : List Nat} (s : Nat) (h : sh.Nodup) :
    (pushShared sh s).Nodup := by
  unfold pushShared
  split
  · exact h
  · rename_i hs
    simp [List.nodup_append, h, hs]

theorem foldl_pushShared_subset (L : List Nat) :
    ∀ sh : List Nat, sh ⊆ L.foldl pushShared sh := by
  induction L with
  | nil => exact fun sh a ha => ha
  | cons x xs ih =>
    intro sh a ha
    exact ih (pushShared sh x) (pushShared_subset sh x ha)

theorem foldl_pushShared_nodup (L : List Nat) :
    ∀ sh : List Nat, sh.Nodup → (L.foldl pushShared sh).Nodup := by
  induction L with
  | nil => exact fun sh h => h
  | cons x xs ih => exact fun sh h => ih (pushShared sh x) (pushShared_nodup x h)

theorem collectShared_subset (sh : List Nat) (i : Nat) (cl : List Nat) :
    sh ⊆ collectShared sh i cl :=
  foldl_pushShared_subset _ sh

theorem collectShared_nodup {sh : List Nat} (i : Nat) (cl : List Nat) (h : sh.Nodup) :
    (collectShared sh i cl).Nodup :=
  foldl_pushShared_nodup _ sh h

theorem collectShared_self_only {sh : List Nat} {i : Nat} {cl : List Nat}
    (h : ∀ k ∈ cl, k = i) : collectShared sh i cl = sh := by
  unfold collectShared
  have : cl.filter (fun s => s ≠ i) = [] := by
    apply List.filter_eq_nil_iff.mpr
    intro k hk
    simp [h k hk]
  rw [this]
  rfl

/-! ### Case analysis of one step of the first classification pass -/

theorem classifyStep_cases (cfg : OutputPluginConfig) (comp : Compilation)
    (entry? : Option Nat) (st : ClassifyState) (i : Nat) :
    (i ∈ st.shared ∧ classifyStep cfg comp entry? st i = st) ∨
    (i ∉ st.shared ∧
      (entry? = some i ∨ isLocalChunk cfg.localChunks (chunkIdent (comp.chunk i)) = true) ∧
      classifyStep cfg comp entry? st i =
        { shared := collectShared st.shared i (comp.chunk i).allInitialChunks,
          locals := st.locals ++ [i], remotes := st.remotes }) ∨
    (i ∉ st.shared ∧ entry? ≠ some i ∧
      isLocalChunk cfg.localChunks (chunkIdent (comp.chunk i)) = false ∧
      classifyStep cfg comp entry? st i =
        { shared := collectShared st.shared i (comp.chunk i).allInitialChunks,
          locals := st.locals, remotes := st.remotes ++ [i] }) := by
  unfold classifyStep
  by_cases hsh : i ∈ st.shared
  · exact Or.inl ⟨hsh, by simp [hsh]⟩
  · by_cases he : entry? = some i
    · exact Or.inr (Or.inl ⟨hsh, Or.inl he, by simp [hsh, he]⟩)
    · by_cases hl : isLocalChunk cfg.localChunks (chunkIdent (comp.chunk i)) = true
      · exact Or.inr (Or.inl ⟨hsh, Or.inr hl, by simp [hsh, he, hl]⟩)
      · refine Or.inr (Or.inr ⟨hsh, he, by simpa using hl, ?_⟩)
        simp only [Bool.not_eq_true] at hl
        simp [hsh, he, hl]

theorem classifyStep_shared_subset (cfg : OutputPluginConfig) (comp : Compilation)
    (entry? : Option Nat) (st : ClassifyState) (i : Nat) :
    st.shared ⊆ (classifyStep cfg comp entry? st i).shared := by
  rcases classifyStep_cases cfg comp entry? st i with ⟨_, h⟩ | ⟨_, _, h⟩ | ⟨_, _, _, h⟩ <;>
    rw [h]
  · exact fun a ha => ha
  · exact collectShared_subset _ _ _
  · exact collectShared_subset _ _ _

theorem classifyStep_locals_subset (cfg : OutputPluginConfig) (comp : Compilation)
    (entry? : Option Nat) (st : ClassifyState) (i : Nat) :
    st.locals ⊆ (classifyStep cfg comp entry? st i).locals := by
  rcases classifyStep_cases cfg comp entry? st i with ⟨_, h⟩ | ⟨_, _, h⟩ | ⟨_, _, _, h⟩ <;>
    rw [h]
  · exact fun a ha => ha
  · exact List.subset_append_left _ _
  · exact fun a ha => ha

theorem classifyStep_remotes_subset (cfg : OutputPluginConfig) (comp : Compilation)
    (entry? : Option Nat) (st : ClassifyState) (i : Nat) :
    st.remotes ⊆ (classifyStep cfg comp entry? st i).remotes := by
  rcases classifyStep_cases cfg comp entry? st i with ⟨_, h⟩ | ⟨_, _, h⟩ | ⟨_, _, _, h⟩ <;>
    rw [h]
  · exact fun a ha => ha
  · exact fun a ha => ha
  · exact List.subset_append_left _ _

/-! ### Invariants of the first pass, as a fold -/

theorem foldl_classifyStep_shared_subset (cfg : OutputPluginConfig) (comp : Compilation)
    (entry? : Option Nat) (L : List Nat) :
    ∀ st : ClassifyState, st.shared ⊆ (L.foldl (classifyStep cfg comp entry?) st).shared := by
  induction L with
  | nil => exact fun st a ha => ha
  | cons x xs ih =>
    intro st a ha
    exact ih (classifyStep cfg comp entry? st x)
      (classifyStep_shared_subset cfg comp entry? st x ha)

theorem foldl_classifyStep_locals_subset (cfg : OutputPluginConfig) (comp : Compilation)
    (entry? : Option Nat) (L : List Nat) :
    ∀ st : ClassifyState, st.locals ⊆ (L.foldl (classifyStep cfg comp entry?) st).locals := by
  induction L with
  | nil => exact fun st a ha => ha
  | cons x xs ih =>
    intro st a ha
    exact ih (classifyStep cfg comp entry? st x)
      (classifyStep_locals_subset cfg comp entry? st x ha)

theorem foldl_classifyStep_remotes_subset (cfg : OutputPluginConfig) (comp : Compilation)
    (entry? : Option Nat) (L : List Nat) :
    ∀ st : ClassifyState, st.remotes ⊆ (L.foldl (classifyStep cfg comp entry?) st).remotes := by
  induction L with
  | nil => exact fun st a ha => ha
  | cons x xs ih =>
    intro st a ha
    exact ih (classifyStep cfg comp entry? st x)
      (classifyStep_remotes_subset cfg comp entry? st x ha)

/-- Every chunk the first pass visits ends up classified or recorded as shared. -/
theorem foldl_classifyStep_mem (cfg : OutputPluginConfig) (comp : Compilation)
    (entry? : Option Nat) (L : List Nat) :
    ∀ st : ClassifyState, ∀ i ∈ L,
      i ∈ (L.foldl (classifyStep cfg comp entry?) st).locals ∨
      i ∈ (L.foldl (classifyStep cfg comp entry?) st).remotes ∨
      i ∈ (L.foldl (classifyStep cfg comp entry?) st).shared := by
  induction L with
  | nil => intro st i hi; cases hi
  | cons x xs ih =>
    intro st i hi
    rcases List.mem_cons.mp hi with rfl | hi'
    · rcases classifyStep_cases cfg comp entry? st i with ⟨hsh, hstep⟩ | ⟨_, _, hstep⟩ |
        ⟨_, _, _, hstep⟩
      · refine Or.inr (Or.inr ?_)
        have : i ∈ (classifyStep cfg comp entry? st i).shared := by rw [hstep]; exact hsh
        exact foldl_classifyStep_shared_subset cfg comp entry? xs _ this
      · refine Or.inl ?_
        have : i ∈ (classifyStep cfg comp entry? st i).locals := by
          rw [hstep]; exact List.mem_append_right _ (List.mem_singleton.mpr rfl)
        exact foldl_classifyStep_locals_subset cfg comp entry? xs _ this
      · refine Or.inr (Or.inl ?_)
        have : i ∈ (classifyStep cfg comp entry? st i).remotes := by
          rw [hstep]; exact List.mem_append_right _ (List.mem_singleton.mpr rfl)
        exact foldl_classifyStep_remotes_subset cfg comp entry? xs _ this
    · exact ih (classifyStep cfg comp entry? st x) i hi'

/-- The shared set built by the first pass is duplicate-free. -/
theorem foldl_classifyStep_shared_nodup (cfg : OutputPluginConfig) (comp : Compilation)
    (entry? : Option Nat) (L : List Nat) :
    ∀ st : ClassifyState, st.shared.Nodup →
      (L.foldl (classifyStep cfg comp entry?) st).shared.Nodup := by
  induction L with
  | nil => exact fun st h => h
  | cons x xs ih =>
    intro st h
    refine ih (classifyStep cfg comp entry? st x) ?_
    rcases classifyStep_cases cfg comp entry? st x with ⟨_, hstep⟩ | ⟨_, _, hstep⟩ |
      ⟨_, _, _, hstep⟩ <;> rw [hstep]
    · exact h
    · exact collectShared_nodup _ _ h
    · exact collectShared_nodup _ _ h

/-- The two lists built by the first pass stay jointly duplicate-free when the
pass visits pairwise distinct chunks none of which is already classified. -/
theorem foldl_classifyStep_nodup (cfg : OutputPluginConfig) (comp : Compilation)
    (entry? : Option Nat) (L : List Nat) :
    ∀ st : ClassifyState, L.Nodup →
      (∀ i ∈ L, i ∉ st.locals ∧ i ∉ st.remotes) →
      (st.locals ++ st.remotes).Nodup →
      ((L.foldl (classifyStep cfg comp entry?) st).locals ++
        (L.foldl (classifyStep cfg comp entry?) st).remotes).Nodup := by
  induction L with
  | nil => exact fun st _ _ h => h
  | cons x xs ih =>
    intro st hL hfresh hnd
    have hxl : x ∉ st.locals := (hfresh x (List.mem_cons_self x xs)).1
    have hxr : x ∉ st.remotes := (hfresh x (List.mem_cons_self x xs)).2
    have hLx : x ∉ xs := (List.nodup_cons.mp hL).1
    have hxs : xs.Nodup := (List.nodup_cons.mp hL).2
    rw [List.foldl_cons]
    rcases classifyStep_cases cfg comp entry? st x with ⟨_, hstep⟩ | ⟨_, _, hstep⟩ |
      ⟨_, _, _, hstep⟩ <;> rw [hstep]
    · exact ih st hxs (fun i hi => hfresh i (List.mem_cons_of_mem x hi)) hnd
    · refine ih _ hxs ?_ ?_
      · intro i hi
        have hne : i ≠ x := fun h => hLx (h ▸ hi)
        have := hfresh i (List.mem_cons_of_mem x hi)
        refine ⟨?_, this.2⟩
        simp only [List.mem_append, List.mem_singleton]
        rintro (h | h)
        · exact this.1 h
        · exact hne h
      · simp only [List.nodup_append] at hnd ⊢
        refine ⟨?_, hnd.2.1, ?_⟩
        · simp [List.nodup_append, hnd.1, hxl]
        · intro a ha
          rcases List.mem_append.mp ha with h | h
          · exact hnd.2.2 h
          · rw [List.mem_singleton.mp h]
            exact hxr
    · refine ih _ hxs ?_ ?_
      · intro i hi
        have hne : i ≠ x := fun h => hLx (h ▸ hi)
        have := hfresh i (List.mem_cons_of_mem x hi)
        refine ⟨this.1, ?_⟩
        simp only [List.mem_append, List.mem_singleton]
        rintro (h | h)
        · exact this.2 h
        · exact hne h
      · simp only [List.nodup_append] at hnd ⊢
        refine ⟨hnd.1, ?_, ?_⟩
        · simp [List.nodup_append, hnd.2.1, hxr]
        · intro a ha
          simp only [List.mem_append, List.mem_singleton]
          rintro (h | h)
          · exact hnd.2.2 ha h
          · exact hxl (h ▸ ha)

/-- Only the entry chunk or a rule-matching chunk is ever added to the local
list during the first pass. -/
theorem foldl_classifyStep_locals_mem (cfg : OutputPluginConfig) (comp : Compilation)
    (entry? : Option Nat) (L : List Nat) :
    ∀ st : ClassifyState, ∀ x, x ∈ (L.foldl (classifyStep cfg comp entry?) st).locals →
      x ∈ st.locals ∨ entry? = some x ∨
        isLocalChunk cfg.localChunks (chunkIdent (comp.chunk x)) = true := by
  induction L with
  | nil => exact fun st x hx => Or.inl hx
  | cons y xs ih =>
    intro st x hx
    rcases ih (classifyStep cfg comp entry? st y) x hx with hx' | h | h
    · rcases classifyStep_cases cfg comp entry? st y with ⟨_, hstep⟩ | ⟨_, hcond, hstep⟩ |
        ⟨_, _, _, hstep⟩ <;> rw [hstep] at hx'
      · exact Or.inl hx'
      · rcases List.mem_append.mp hx' with h | h
        · exact Or.inl h
        · rw [List.mem_singleton.mp h]
          exact Or.inr hcond
      · exact Or.inl hx'
    · exact Or.inr (Or.inl h)
    · exact Or.inr (Or.inr h)

/-- The entry chunk, when visited by the first pass and never recorded as
shared, is pushed to the local list — regardless of the matcher rules. -/
theorem foldl_classifyStep_entry (cfg : OutputPluginConfig) (comp : Compilation)
    (e : Nat) (L : List Nat) :
    ∀ st : ClassifyState, e ∈ L →
      e ∉ (L.foldl (classifyStep cfg comp (some e)) st).shared →
      e ∈ (L.foldl (classifyStep cfg comp (some e)) st).locals := by
  induction L with
  | nil => intro st he _; cases he
  | cons x xs ih =>
    intro st he hsh
    rcases List.mem_cons.mp he with rfl | he'
    · rcases classifyStep_cases cfg comp (some e) st e with ⟨hmem, hstep⟩ | ⟨_, _, hstep⟩ |
        ⟨_, hne, _, _⟩
      · exfalso
        apply hsh
        have : e ∈ (classifyStep cfg comp (some e) st e).shared := by rw [hstep]; exact hmem
        exact foldl_classifyStep_shared_subset cfg comp (some e) xs _ this
      · have : e ∈ (classifyStep cfg comp (some e) st e).locals := by
          rw [hstep]; exact List.mem_append_right _ (List.mem_singleton.mpr rfl)
        exact foldl_classifyStep_locals_subset cfg comp (some e) xs _ this
      · exact absurd rfl hne
    · exact ih (classifyStep cfg comp (some e) st x) he' hsh

/-- When every chunk's initial closure is trivial (contains nothing but the
chunk itself) the shared set stays empty through the first pass. -/
theorem foldl_classifyStep_shared_empty (cfg : OutputPluginConfig) (comp : Compilation)
    (entry? : Option Nat) (L : List Nat)
    (hcl : ∀ i ∈ L, ∀ k ∈ (comp.chunk i).allInitialChunks, k = i) :
    ∀ st : ClassifyState, st.shared = [] →
      (L.foldl (classifyStep cfg comp entry?) st).shared = [] := by
  induction L with
  | nil => exact fun st h => h
  | cons x xs ih =>
    intro st hst
    refine ih (fun i hi => hcl i (List.mem_cons_of_mem x hi)) _ ?_
    rcases classifyStep_cases cfg comp entry? st x with ⟨_, hstep⟩ | ⟨_, _, hstep⟩ |
      ⟨_, _, _, hstep⟩ <;> rw [hstep]
    · exact hst
    · simp only
      rw [collectShared_self_only (hcl x (List.mem_cons_self x xs))]
      exact hst
    · simp only
      rw [collectShared_self_only (hcl x (List.mem_cons_self x xs))]
      exact hst

/-! ### Invariants of the shared-chunk resolution pass, as a fold -/

theorem usedByLocal_iff {comp : Compilation} {locals : List Nat} {s : Nat} :
    usedByLocal comp locals s = true ↔
      ∃ l ∈ locals, s ∈ (comp.chunk l).allInitialChunks := by
  simp [usedByLocal, List.any_eq_true]

theorem sharedStep_cases (cfg : OutputPluginConfig) (comp : Compilation)
    (acc : List Nat × List Nat) (s : Nat) :
    ((usedByLocal comp acc.1 s ||
        isLocalChunk cfg.localChunks (chunkIdent (comp.chunk s))) = true ∧
      sharedStep cfg comp acc s = (acc.1 ++ [s], acc.2)) ∨
    ((usedByLocal comp acc.1 s ||
        isLocalChunk cfg.localChunks (chunkIdent (comp.chunk s))) = false ∧
      sharedStep cfg comp acc s = (acc.1, acc.2 ++ [s])) := by
  unfold sharedStep
  by_cases h : (usedByLocal comp acc.1 s ||
      isLocalChunk cfg.localChunks (chunkIdent (comp.chunk s))) = true
  · exact Or.inl ⟨h, by simp [h]⟩
  · refine Or.inr ⟨by simpa using h, ?_⟩
    simp only [Bool.not_eq_true] at h
    simp [h]

theorem foldl_sharedStep_fst_subset (cfg : OutputPluginConfig) (comp : Compilation)
    (L : List Nat) :
    ∀ acc : List Nat × List Nat, acc.1 ⊆ (L.foldl (sharedStep cfg comp) acc).1 := by
  induction L with
  | nil => exact fun acc a ha => ha
  | cons x xs ih =>
    intro acc a ha
    refine ih (sharedStep cfg comp acc x) ?_
    rcases sharedStep_cases cfg comp acc x with ⟨_, hstep⟩ | ⟨_, hstep⟩ <;> rw [hstep]
    · exact List.mem_append_left _ ha
    · exact ha

theorem foldl_sharedStep_snd_subset (cfg : OutputPluginConfig) (comp : Compilation)
    (L : List Nat) :
    ∀ acc : List Nat × List Nat, acc.2 ⊆ (L.foldl (sharedStep cfg comp) acc).2 := by
  induction L with
  | nil => exact fun acc a ha => ha
  | cons x xs ih =>
    intro acc a ha
    refine ih (sharedStep cfg comp acc x) ?_
    rcases sharedStep_cases cfg comp acc x with ⟨_, hstep⟩ | ⟨_, hstep⟩ <;> rw [hstep]
    · exact ha
    · exact List.mem_append_left _ ha

/-- Anything in the first component after the resolution pass was already local
or came from the processed list. -/
theorem foldl_sharedStep_fst_mem (cfg : OutputPluginConfig) (comp : Compilation)
    (L : List Nat) :
    ∀ acc : List Nat × List Nat, ∀ x, x ∈ (L.foldl (sharedStep cfg comp) acc).1 →
      x ∈ acc.1 ∨ x ∈ L := by
  induction L with
  | nil => exact fun acc x hx => Or.inl hx
  | cons y xs ih =>
    intro acc x hx
    rcases ih (sharedStep cfg comp acc y) x hx with hx' | hx'
    · rcases sharedStep_cases cfg comp acc y with ⟨_, hstep⟩ | ⟨_, hstep⟩ <;> rw [hstep] at hx'
      · rcases List.mem_append.mp hx' with h | h
        · exact Or.inl h
        · exact Or.inr (List.mem_cons.mpr (Or.inl (List.mem_singleton.mp h)))
      · exact Or.inl hx'
    · exact Or.inr (List.mem_cons_of_mem y hx')

/-- Anything in the second component after the resolution pass was already
remote or came from the processed list. -/
theorem foldl_sharedStep_snd_mem (cfg : OutputPluginConfig) (comp : Compilation)
    (L : List Nat) :
    ∀ acc : List Nat × List Nat, ∀ x, x ∈ (L.foldl (sharedStep cfg comp) acc).2 →
      x ∈ acc.2 ∨ x ∈ L := by
  induction L with
  | nil => exact fun acc x hx => Or.inl hx
  | cons y xs ih =>
    intro acc x hx
    rcases ih (sharedStep cfg comp acc y) x hx with hx' | hx'
    · rcases sharedStep_cases cfg comp acc y with ⟨_, hstep⟩ | ⟨_, hstep⟩ <;> rw [hstep] at hx'
      · exact Or.inl hx'
      · rcases List.mem_append.mp hx' with h | h
        · exact Or.inl h
        · exact Or.inr (List.mem_cons.mpr (Or.inl (List.mem_singleton.mp h)))
    · exact Or.inr (List.mem_cons_of_mem y hx')

/-- Every processed shared chunk lands in one of the two components. -/
theorem foldl_sharedStep_total (cfg : OutputPluginConfig) (comp : Compilation)
    (L : List Nat) :
    ∀ acc : List Nat × List Nat, ∀ x ∈ L,
      x ∈ (L.foldl (sharedStep cfg comp) acc).1 ∨
      x ∈ (L.foldl (sharedStep cfg comp) acc).2 := by
  induction L with
  | nil => intro acc x hx; cases hx
  | cons y xs ih =>
    intro acc x hx
    rcases List.mem_cons.mp hx with rfl | hx'
    · rcases sharedStep_cases cfg comp acc x with ⟨_, hstep⟩ | ⟨_, hstep⟩
      · refine Or.inl ?_
        have : x ∈ (sharedStep cfg comp acc x).1 := by
          rw [hstep]; exact List.mem_append_right _ (List.mem_singleton.mpr rfl)
        simpa using foldl_sharedStep_fst_subset cfg comp xs _ this
      · refine Or.inr ?_
        have : x ∈ (sharedStep cfg comp acc x).2 := by
          rw [hstep]; exact List.mem_append_right _ (List.mem_singleton.mpr rfl)
        simpa using foldl_sharedStep_snd_subset cfg comp xs _ this
    · simpa using ih (sharedStep cfg comp acc y) x hx'

/-- The resolution pass keeps the joint list duplicate-free when it processes
pairwise distinct chunks none of which was already classified. -/
theorem foldl_sharedStep_nodup (cfg : OutputPluginConfig) (comp : Compilation)
    (L : List Nat) :
    ∀ acc : List Nat × List Nat, L.Nodup →
      (∀ x ∈ L, x ∉ acc.1 ∧ x ∉ acc.2) →
      (acc.1 ++ acc.2).Nodup →
      ((L.foldl (sharedStep cfg comp) acc).1 ++ (L.foldl (sharedStep cfg comp) acc).2).Nodup := by
  induction L with
  | nil => exact fun acc _ _ h => h
  | cons x xs ih =>
    intro acc hL hfresh hnd
    have hxl : x ∉ acc.1 := (hfresh x (List.mem_cons_self x xs)).1
    have hxr : x ∉ acc.2 := (hfresh x (List.mem_cons_self x xs)).2
    have hLx : x ∉ xs := (List.nodup_cons.mp hL).1
    have hxs : xs.Nodup := (List.nodup_cons.mp hL).2
    rw [List.foldl_cons]
    rcases sharedStep_cases cfg comp acc x with ⟨_, hstep⟩ | ⟨_, hstep⟩ <;> rw [hstep]
    · refine ih _ hxs ?_ ?_
      · intro i hi
        have hne : i ≠ x := fun h => hLx (h ▸ hi)
        have := hfresh i (List.mem_cons_of_mem x hi)
        refine ⟨?_, this.2⟩
        simp only [List.mem_append, List.mem_singleton]
        rintro (h | h)
        · exact this.1 h
        · exact hne h
      · simp only [List.nodup_append] at hnd ⊢
        refine ⟨?_, hnd.2.1, ?_⟩
        · simp [List.nodup_append, hnd.1, hxl]
        · intro a ha
          rcases List.mem_append.mp ha with h | h
          · exact hnd.2.2 h
          · rw [List.mem_singleton.mp h]
            exact hxr
    · refine ih _ hxs ?_ ?_
      · intro i hi
        have hne : i ≠ x := fun h => hLx (h ▸ hi)
        have := hfresh i (List.mem_cons_of_mem x hi)
        refine ⟨this.1, ?_⟩
        simp only [List.mem_append, List.mem_singleton]
        rintro (h | h)
        · exact this.2 h
        · exact hne h
      · simp only [List.nodup_append] at hnd ⊢
        refine ⟨hnd.1, ?_, ?_⟩
        · simp [List.nodup_append, hnd.2.1, hxr]
        · intro a ha
          simp only [List.mem_append, List.mem_singleton]
          rintro (h | h)
          · exact hnd.2.2 ha h
          · exact hxl (h ▸ ha)

/-- A shared chunk matching no rule and required by no chunk that is local at
the end of the pass is resolved to the remote side. -/
theorem foldl_sharedStep_remote (cfg : OutputPluginConfig) (comp : Compilation)
    (L : List Nat) (s : Nat)
    (hrule : isLocalChunk cfg.localChunks (chunkIdent (comp.chunk s)) = false) :
    ∀ acc : List Nat × List Nat, s ∈ L →
      (∀ l ∈ (L.foldl (sharedStep cfg comp) acc).1, s ∉ (comp.chunk l).allInitialChunks) →
      s ∈ (L.foldl (sharedStep cfg comp) acc).2 := by
  induction L with
  | nil => intro acc hs _; cases hs
  | cons x xs ih =>
    intro acc hs hcl
    rcases List.mem_cons.mp hs with rfl | hs'
    · have hused : usedByLocal comp acc.1 s = false := by
        by_contra h
        rw [Bool.not_eq_false, usedByLocal_iff] at h
        obtain ⟨l, hl, hmem⟩ := h
        have hlf : l ∈ (List.foldl (sharedStep cfg comp) acc (s :: xs)).1 := by
          rw [List.foldl_cons]
          refine foldl_sharedStep_fst_subset cfg comp xs _ ?_
          rcases sharedStep_cases cfg comp acc s with ⟨_, hstep⟩ | ⟨_, hstep⟩ <;> rw [hstep]
          · exact List.mem_append_left _ hl
          · exact hl
        exact hcl l hlf hmem
      have hstep : sharedStep cfg comp acc s = (acc.1, acc.2 ++ [s]) := by
        unfold sharedStep
        simp [hused, hrule]
      rw [List.foldl_cons, hstep]
      exact foldl_sharedStep_snd_subset cfg comp xs _
        (List.mem_append_right _ (List.mem_singleton.mpr rfl))
    · rw [List.foldl_cons] at hcl ⊢
      exact ih (sharedStep cfg comp acc x) hs' hcl

/-- A shared chunk matching no rule and required by no chunk that is local at
the end of the pass never reaches the local side. -/
theorem foldl_sharedStep_not_fst (cfg : OutputPluginConfig) (comp : Compilation)
    (L : List Nat) (s : Nat)
    (hrule : isLocalChunk cfg.localChunks (chunkIdent (comp.chunk s)) = false) :
    ∀ acc : List Nat × List Nat, s ∉ acc.1 →
      (∀ l ∈ (L.foldl (sharedStep cfg comp) acc).1, s ∉ (comp.chunk l).allInitialChunks) →
      s ∉ (L.foldl (sharedStep cfg comp) acc).1 := by
  induction L with
  | nil => exact fun acc h _ => h
  | cons x xs ih =>
    intro acc hacc hcl
    rw [List.foldl_cons] at hcl ⊢
    refine ih (sharedStep cfg comp acc x) ?_ hcl
    rcases sharedStep_cases cfg comp acc x with ⟨hcond, hstep⟩ | ⟨_, hstep⟩ <;> rw [hstep]
    · simp only [List.mem_append, List.mem_singleton]
      rintro (h | rfl)
      · exact hacc h
      · rw [hrule, Bool.or_false] at hcond
        rw [usedByLocal_iff] at hcond
        obtain ⟨l, hl, hmem⟩ := hcond
        have hlf : l ∈ (List.foldl (sharedStep cfg comp) (sharedStep cfg comp acc s) xs).1 := by
          refine foldl_sharedStep_fst_subset cfg comp xs _ ?_
          rw [hstep]
          exact List.mem_append_left _ hl
        exact hcl l hlf hmem
    · exact hacc

/-! ### Claim C1: totality and disjointness of the partition -/

/-- C1 counterexample build: the entry chunk `main` (index 0) is classified
local in the first pass, and only afterwards discovered as shared — chunk `b`
(index 1) has it in its initial closure — so the resolution pass classifies it
a second time. -/
def compC1 : Compilation :=
  { chunks := [ { name := some "main", files := ["index.bundle"] },
                { name := some "b", allInitialChunks := [0] } ],
    chunkGroups := [ { isInitial := true, chunks := [0] } ] }

/-- Configuration for the C1 counterexample: required platform only, no
matcher rules. -/
def cfgC1 : OutputPluginConfig := { platform := some "ios" }

/-- Claim C1 is false as stated: in the `compC1` build — which has an initial
chunk group and a resolvable entry chunk — chunk 0 appears in BOTH the local
and the remote collection, because it is discovered as shared after it was
already classified in the first pass and the resolution pass classifies it
again. -/
theorem c1_counterexample :
    (findEntryGroup compC1).isSome = true ∧
    findEntryChunk compC1 (entryChunkName cfgC1) = some 0 ∧
    0 ∈ (classifyChunks cfgC1 compC1).1 ∧ 0 ∈ (classifyChunks cfgC1 compC1).2 := by
  decide

/-- Claim C1 (amended): the classification is total unconditionally — every
chunk of the graph appears in at least one collection on every build — and,
provided no chunk is discovered as shared after it has already been classified
in the first pass (every chunk of the shared set is still unclassified when the
first pass ends), every chunk appears in exactly one of the two collections,
none in both. -/
theorem c1_partition (cfg : OutputPluginConfig) (comp : Compilation) :
    (∀ i, i < comp.chunks.length →
        (i ∈ (classifyChunks cfg comp).1 ∨ i ∈ (classifyChunks cfg comp).2)) ∧
    ((∀ s ∈ (initialState cfg comp).shared,
        s ∉ (initialState cfg comp).locals ∧ s ∉ (initialState cfg comp).remotes) →
      ((classifyChunks cfg comp).1 ++ (classifyChunks cfg comp).2).Nodup) := by
  have hgoal1 : classifyChunks cfg comp =
      List.foldl (sharedStep cfg comp)
        ((initialState cfg comp).locals, (initialState cfg comp).remotes)
        (initialState cfg comp).shared := rfl
  have hst : initialState cfg comp =
      List.foldl (classifyStep cfg comp (findEntryChunk comp (entryChunkName cfg))) {}
        (List.range comp.chunks.length) := rfl
  constructor
  · intro i hi
    have h3 := foldl_classifyStep_mem cfg comp (findEntryChunk comp (entryChunkName cfg))
      (List.range comp.chunks.length) {} i (List.mem_range.mpr hi)
    rw [← hst] at h3
    rw [hgoal1]
    rcases h3 with h | h | h
    · exact Or.inl (foldl_sharedStep_fst_subset cfg comp _ _ h)
    · exact Or.inr (foldl_sharedStep_snd_subset cfg comp _ _ h)
    · exact foldl_sharedStep_total cfg comp _ _ i h
  · intro hfresh
    have hnd1 : ((initialState cfg comp).locals ++ (initialState cfg comp).remotes).Nodup := by
      rw [hst]
      exact foldl_classifyStep_nodup cfg comp _ _ {} (List.nodup_range _)
        (fun i _ => ⟨List.not_mem_nil i, List.not_mem_nil i⟩) List.nodup_nil
    have hndsh : (initialState cfg comp).shared.Nodup := by
      rw [hst]
      exact foldl_classifyStep_shared_nodup cfg comp _ _ {} List.nodup_nil
    rw [hgoal1]
    exact foldl_sharedStep_nodup cfg comp _ _ hndsh hfresh hnd1

/-- Build used to witness the amended C1: the spec §8 scenario — entry `main`
requiring `vendor`, rule-matched `detail` also requiring `vendor`. -/
def compC1w : Compilation :=
  { chunks := [ { name := some "main", files := ["index.bundle"], allInitialChunks := [2] },
                { name := some "detail", allInitialChunks := [2] },
                { name := some "vendor" } ],
    chunkGroups := [ { isInitial := true, chunks := [0] } ] }

/-- Configuration for the C1 witness build: `detail` is a local chunk by rule. -/
def cfgC1w : OutputPluginConfig :=
  { platform := some "ios", localChunks := [Rule.lit "detail"] }

/-- Witness for the amended C1 on the `compC1w` build. -/
theorem c1_partition_witness :
    (∀ s ∈ (initialState cfgC1w compC1w).shared,
        s ∉ (initialState cfgC1w compC1w).locals ∧ s ∉ (initialState cfgC1w compC1w).remotes) ∧
    ((∀ i, i < compC1w.chunks.length →
        (i ∈ (classifyChunks cfgC1w compC1w).1 ∨ i ∈ (classifyChunks cfgC1w compC1w).2)) ∧
      ((classifyChunks cfgC1w compC1w).1 ++ (classifyChunks cfgC1w compC1w).2).Nodup) :=
  ⟨by decide,
    (c1_partition cfgC1w compC1w).1,
    (c1_partition cfgC1w compC1w).2 (by decide)⟩

/-! ### Claim C2: the entry chunk is always classified local -/

/-- C2 counterexample build: chunk `b` (index 0) is iterated first and has the
entry chunk `main` (index 1) in its initial closure, so the entry chunk is
deferred to the shared-chunk resolution pass. -/
def compC2 : Compilation :=
  { chunks := [ { name := some "b", allInitialChunks := [1] },
                { name := some "main", files := ["index.bundle"] } ],
    chunkGroups := [ { isInitial := true, chunks := [0, 1] } ] }

/-- Configuration for the C2 counterexample: no matcher rules. -/
def cfgC2 : OutputPluginConfig := { platform := some "ios" }

/-- Claim C2 is false as stated: in the `compC2` build the entry chunk is
resolvable (index 1) but is deferred to the shared-chunk resolution pass, which
never consults entry status; no local chunk requires it and no rule matches it,
so the entry chunk ends up classified REMOTE. -/
theorem c2_counterexample :
    findEntryChunk compC2 (entryChunkName cfgC2) = some 1 ∧
    1 ∈ (classifyChunks cfgC2 compC2).2 ∧ 1 ∉ (classifyChunks cfgC2 compC2).1 := by
  decide

/-- Claim C2 (amended): the entry chunk is classified local, regardless of the
matcher rules, whenever it is NOT deferred to the shared-chunk resolution pass
— i.e. whenever it is not recorded in the shared set.  (When it is deferred, it
is treated like any other shared chunk and can end up remote, as
`c2_counterexample` shows.) -/
theorem c2_entry_local (cfg : OutputPluginConfig) (comp : Compilation) (e : Nat)
    (he : findEntryChunk comp (entryChunkName cfg) = some e)
    (hn : e < comp.chunks.length)
    (hns : e ∉ (initialState cfg comp).shared) :
    e ∈ (classifyChunks cfg comp).1 ∧ e ∉ (classifyChunks cfg comp).2 := by
  have hgoal1 : classifyChunks cfg comp =
      List.foldl (sharedStep cfg comp)
        ((initialState cfg comp).locals, (initialState cfg comp).remotes)
        (initialState cfg comp).shared := rfl
  have hst : initialState cfg comp =
      List.foldl (classifyStep cfg comp (some e)) {} (List.range comp.chunks.length) := by
    unfold initialState firstPass
    rw [he]
  have hloc : e ∈ (initialState cfg comp).locals := by
    rw [hst]
    refine foldl_classifyStep_entry cfg comp e _ {} (List.mem_range.mpr hn) ?_
    rw [← hst]
    exact hns
  have hnd1 : ((initialState cfg comp).locals ++ (initialState cfg comp).remotes).Nodup := by
    rw [hst]
    exact foldl_classifyStep_nodup cfg comp _ _ {} (List.nodup_range _)
      (fun i _ => ⟨List.not_mem_nil i, List.not_mem_nil i⟩) List.nodup_nil
  have hnr : e ∉ (initialState cfg comp).remotes := by
    intro hr
    exact (List.nodup_append.mp hnd1).2.2 hloc hr
  constructor
  · rw [hgoal1]
    exact foldl_sharedStep_fst_subset cfg comp _ _ hloc
  · rw [hgoal1]
    intro hmem
    rcases foldl_sharedStep_snd_mem cfg comp _ _ e hmem with h | h
    · exact hnr h
    · exact hns h

/-- Build used to witness the amended C2: a lone entry chunk, never deferred. -/
def compC2w : Compilation :=
  { chunks := [ { name := some "main", files := ["index.bundle"] } ],
    chunkGroups := [ { isInitial := true, chunks := [0] } ] }

/-- Configuration for the C2 witness build. -/
def cfgC2w : OutputPluginConfig := { platform := some "android" }

/-- Witness for the amended C2 on the `compC2w` build. -/
theorem c2_entry_local_witness :
    (findEntryChunk compC2w (entryChunkName cfgC2w) = some 0 ∧
      0 < compC2w.chunks.length ∧ 0 ∉ (initialState cfgC2w compC2w).shared) ∧
    (0 ∈ (classifyChunks cfgC2w compC2w).1 ∧ 0 ∉ (classifyChunks cfgC2w compC2w).2) :=
  ⟨by decide, c2_entry_local cfgC2w compC2w 0 (by decide) (by decide) (by decide)⟩

/-! ### Claim C3: resolution of the deferred/shared set -/

/-- Claim C3: for every chunk `s` in the deferred/shared set — written as the
split `pre ++ s :: post` of the shared set, `s` being examined after the
chunks of `pre` — `s` is classified local exactly when some chunk classified
local at that point (the spec's "already classified Local": the first-pass
locals plus the shared chunks of `pre` resolved local) has `s` in its initial
closure, or `s` matches the local-chunk rules; otherwise `s` is classified
remote.  The hypotheses `hl`, `hr` say `s` was not classified in the first pass
— i.e. `s` is genuinely deferred. -/
theorem c3_shared_resolution (cfg : OutputPluginConfig) (comp : Compilation)
    (s : Nat) (pre post : List Nat)
    (hsplit : (initialState cfg comp).shared = pre ++ s :: post)
    (hl : s ∉ (initialState cfg comp).locals)
    (hr : s ∉ (initialState cfg comp).remotes) :
    (s ∈ (classifyChunks cfg comp).1 ↔
      (usedByLocal comp
          (List.foldl (sharedStep cfg comp)
            ((initialState cfg comp).locals, (initialState cfg comp).remotes) pre).1 s ||
        isLocalChunk cfg.localChunks (chunkIdent (comp.chunk s))) = true) ∧
    (s ∈ (classifyChunks cfg comp).2 ↔
      (usedByLocal comp
          (List.foldl (sharedStep cfg comp)
            ((initialState cfg comp).locals, (initialState cfg comp).remotes) pre).1 s ||
        isLocalChunk cfg.localChunks (chunkIdent (comp.chunk s))) = false) := by
  have hndsh : (initialState cfg comp).shared.Nodup := by
    have hst : initialState cfg comp =
        List.foldl (classifyStep cfg comp (findEntryChunk comp (entryChunkName cfg))) {}
          (List.range comp.chunks.length) := rfl
    rw [hst]
    exact foldl_classifyStep_shared_nodup cfg comp _ _ {} List.nodup_nil
  rw [hsplit] at hndsh
  have hnds := List.nodup_append.mp hndsh
  have hpre : s ∉ pre := by
    intro hmem
    exact hnds.2.2 hmem (List.mem_cons_self s post)
  have hpost : s ∉ post := (List.nodup_cons.mp hnds.2.1).1
  have hgoal : classifyChunks cfg comp =
      List.foldl (sharedStep cfg comp)
        (sharedStep cfg comp
          (List.foldl (sharedStep cfg comp)
            ((initialState cfg comp).locals, (initialState cfg comp).remotes) pre) s)
        post := by
    have h0 : classifyChunks cfg comp =
        List.foldl (sharedStep cfg comp)
          ((initialState cfg comp).locals, (initialState cfg comp).remotes)
          (initialState cfg comp).shared := rfl
    rw [h0, hsplit, List.foldl_append, List.foldl_cons]
  cases hcond : (usedByLocal comp
      (List.foldl (sharedStep cfg comp)
        ((initialState cfg comp).locals, (initialState cfg comp).remotes) pre).1 s ||
      isLocalChunk cfg.localChunks (chunkIdent (comp.chunk s))) with
  | true =>
    have hstep : sharedStep cfg comp
        (List.foldl (sharedStep cfg comp)
          ((initialState cfg comp).locals, (initialState cfg comp).remotes) pre) s =
        ((List.foldl (sharedStep cfg comp)
            ((initialState cfg comp).locals, (initialState cfg comp).remotes) pre).1 ++ [s],
          (List.foldl (sharedStep cfg comp)
            ((initialState cfg comp).locals, (initialState cfg comp).remotes) pre).2) := by
      rcases sharedStep_cases cfg comp
          (List.foldl (sharedStep cfg comp)
            ((initialState cfg comp).locals, (initialState cfg comp).remotes) pre) s with
        ⟨_, h⟩ | ⟨hc, _⟩
      · exact h
      · rw [hcond] at hc
        exact Bool.noConfusion hc
    have hin : s ∈ (classifyChunks cfg comp).1 := by
      rw [hgoal, hstep]
      refine foldl_sharedStep_fst_subset cfg comp post _ ?_
      exact List.mem_append_right _ (List.mem_singleton.mpr rfl)
    have hout : s ∉ (classifyChunks cfg comp).2 := by
      rw [hgoal, hstep]
      intro hmem
      rcases foldl_sharedStep_snd_mem cfg comp post _ s hmem with h | h
      · rcases foldl_sharedStep_snd_mem cfg comp pre _ s h with h' | h'
        · exact hr h'
        · exact hpre h'
      · exact hpost h
    constructor
    · exact ⟨fun _ => rfl, fun _ => hin⟩
    · constructor
      · intro h
        exact absurd h hout
      · intro h
        cases h
  | false =>
    have hstep : sharedStep cfg comp
        (List.foldl (sharedStep cfg comp)
          ((initialState cfg comp).locals, (initialState cfg comp).remotes) pre) s =
        ((List.foldl (sharedStep cfg comp)
            ((initialState cfg comp).locals, (initialState cfg comp).remotes) pre).1,
          (List.foldl (sharedStep cfg comp)
            ((initialState cfg comp).locals, (initialState cfg comp).remotes) pre).2 ++ [s]) := by
      rcases sharedStep_cases cfg comp
          (List.foldl (sharedStep cfg comp)
            ((initialState cfg comp).locals, (initialState cfg comp).remotes) pre) s with
        ⟨hc, _⟩ | ⟨_, h⟩
      · rw [hcond] at hc
        exact Bool.noConfusion hc
      · exact h
    have hin : s ∈ (classifyChunks cfg comp).2 := by
      rw [hgoal, hstep]
      refine foldl_sharedStep_snd_subset cfg comp post _ ?_
      exact List.mem_append_right _ (List.mem_singleton.mpr rfl)
    have hout : s ∉ (classifyChunks cfg comp).1 := by
      rw [hgoal, hstep]
      intro hmem
      rcases foldl_sharedStep_fst_mem cfg comp post _ s hmem with h | h
      · rcases foldl_sharedStep_fst_mem cfg comp pre _ s h with h' | h'
        · exact hl h'
        · exact hpre h'
      · exact hpost h
    constructor
    · constructor
      · intro h
        exact absurd h hout
      · intro h
        cases h
    · exact ⟨fun _ => rfl, fun _ => hin⟩

/-- Build used to witness C3: the spec §8 scenario; `vendor` (index 2) is the
single deferred chunk and is upgraded to local because the local entry chunk
requires it. -/
def compC3w : Compilation :=
  { chunks := [ { name := some "main", files := ["index.bundle"], allInitialChunks := [2] },
                { name := some "detail", allInitialChunks := [2] },
                { name := some "vendor" } ],
    chunkGroups := [ { isInitial := true, chunks := [0] } ] }

/-- Configuration for the C3 witness build. -/
def cfgC3w : OutputPluginConfig :=
  { platform := some "ios", localChunks := [Rule.lit "detail"] }

/-- Witness for C3 on the `compC3w` build. -/
theorem c3_shared_resolution_witness :
    ((initialState cfgC3w compC3w).shared = [] ++ 2 :: [] ∧
      2 ∉ (initialState cfgC3w compC3w).locals ∧
      2 ∉ (initialState cfgC3w compC3w).remotes) ∧
    ((2 ∈ (classifyChunks cfgC3w compC3w).1 ↔
      (usedByLocal compC3w
          (List.foldl (sharedStep cfgC3w compC3w)
            ((initialState cfgC3w compC3w).locals, (initialState cfgC3w compC3w).remotes) []).1 2 ||
        isLocalChunk cfgC3w.localChunks (chunkIdent (compC3w.chunk 2))) = true) ∧
    (2 ∈ (classifyChunks cfgC3w compC3w).2 ↔
      (usedByLocal compC3w
          (List.foldl (sharedStep cfgC3w compC3w)
            ((initialState cfgC3w compC3w).locals, (initialState cfgC3w compC3w).remotes) []).1 2 ||
        isLocalChunk cfgC3w.localChunks (chunkIdent (compC3w.chunk 2))) = false)) :=
  ⟨by decide, c3_shared_resolution cfgC3w compC3w 2 [] [] (by decide) (by decide) (by decide)⟩

/-! ### Claim C4: the remote default -/

/-- Claim C4: a chunk that is not the entry chunk, matches no local-chunk rule,
and lies in the initial closure of no chunk of the final local collection is
classified remote (and only remote). -/
theorem c4_remote_default (cfg : OutputPluginConfig) (comp : Compilation) (s : Nat)
    (hn : s < comp.chunks.length)
    (hentry : findEntryChunk comp (entryChunkName cfg) ≠ some s)
    (hrule : isLocalChunk cfg.localChunks (chunkIdent (comp.chunk s)) = false)
    (hcl : ∀ l ∈ (classifyChunks cfg comp).1, s ∉ (comp.chunk l).allInitialChunks) :
    s ∈ (classifyChunks cfg comp).2 ∧ s ∉ (classifyChunks cfg comp).1 := by
  have hgoal1 : classifyChunks cfg comp =
      List.foldl (sharedStep cfg comp)
        ((initialState cfg comp).locals, (initialState cfg comp).remotes)
        (initialState cfg comp).shared := rfl
  have hst : initialState cfg comp =
      List.foldl (classifyStep cfg comp (findEntryChunk comp (entryChunkName cfg))) {}
        (List.range comp.chunks.length) := rfl
  have hsl : s ∉ (initialState cfg comp).locals := by
    intro hmem
    rw [hst] at hmem
    rcases foldl_classifyStep_locals_mem cfg comp _ _ {} s hmem with h | h | h
    · cases h
    · exact hentry h
    · rw [hrule] at h
      cases h
  have hcl' : ∀ l ∈ (List.foldl (sharedStep cfg comp)
      ((initialState cfg comp).locals, (initialState cfg comp).remotes)
      (initialState cfg comp).shared).1, s ∉ (comp.chunk l).allInitialChunks := by
    rw [← hgoal1]
    exact hcl
  constructor
  · have h3 := foldl_classifyStep_mem cfg comp (findEntryChunk comp (entryChunkName cfg))
      (List.range comp.chunks.length) {} s (List.mem_range.mpr hn)
    rw [← hst] at h3
    rw [hgoal1]
    rcases h3 with h | h | h
    · exact absurd h hsl
    · exact foldl_sharedStep_snd_subset cfg comp _ _ h
    · exact foldl_sharedStep_remote cfg comp _ s hrule _ h hcl'
  · rw [hgoal1]
    exact foldl_sharedStep_not_fst cfg comp _ s hrule _ hsl hcl'

/-- Build used to witness C4: entry `main` plus an unmatched, unshared chunk
`b`, which must come out remote. -/
def compC4w : Compilation :=
  { chunks := [ { name := some "main", files := ["index.bundle"] },
                { name := some "b" } ],
    chunkGroups := [ { isInitial := true, chunks := [0] } ] }

/-- Configuration for the C4 witness build. -/
def cfgC4w : OutputPluginConfig := { platform := some "ios" }

/-- Witness for C4 on the `compC4w` build. -/
theorem c4_remote_default_witness :
    (1 < compC4w.chunks.length ∧
      findEntryChunk compC4w (entryChunkName cfgC4w) ≠ some 1 ∧
      isLocalChunk cfgC4w.localChunks (chunkIdent (compC4w.chunk 1)) = false ∧
      (∀ l ∈ (classifyChunks cfgC4w compC4w).1, 1 ∉ (compC4w.chunk l).allInitialChunks)) ∧
    (1 ∈ (classifyChunks cfgC4w compC4w).2 ∧ 1 ∉ (classifyChunks cfgC4w compC4w).1) :=
  ⟨by decide, c4_remote_default cfgC4w compC4w 1 (by decide) (by decide) (by decide) (by decide)⟩

/-! ### Claim C5: unresolvable entry chunk aborts before any mutation -/

/-- Claim C5: when no initial chunk group exists, or no chunk of the initial
group bears the configured entry name, processing fails with the
`Cannot infer entry chunk` error; the asset store is unchanged and no chunk is
enqueued for distribution. -/
theorem c5_missing_entry (cfg : OutputPluginConfig) (cli : CliOptions)
    (comp : Compilation) (assets : List (String × String))
    (hdev : cfg.devServerEnabled = false)
    (hargs : cli.arguments = CliArguments.bundle)
    (hmiss : findEntryGroup comp = none ∨
      ∃ g, findEntryGroup comp = some g ∧
        g.chunks.find? (fun i => (comp.chunk i).name == some (entryChunkName cfg)) = none) :
    applyPlugin cfg (some cli) comp assets =
      some (Except.error "Cannot infer entry chunk - this should have not happened.") ∧
    finalAssets cfg (some cli) comp assets = assets ∧
    enqueuedLocalChunks cfg (some cli) comp assets = [] ∧
    enqueuedRemoteChunks cfg (some cli) comp assets = [] := by
  have hnb : shouldBypass cfg (some cli) = false := by
    simp [shouldBypass, hargs, hdev]
  have hnone : findEntryChunk comp (entryChunkName cfg) = none := by
    unfold findEntryChunk
    rcases hmiss with h | ⟨g, hg, hfind⟩
    · rw [h]
      rfl
    · rw [hg]
      simpa using hfind
  have happ : applyPlugin cfg (some cli) comp assets =
      some (Except.error "Cannot infer entry chunk - this should have not happened.") := by
    simp [applyPlugin, hnb, hnone]
  refine ⟨happ, ?_, ?_, ?_⟩
  · simp [finalAssets, happ]
  · simp [enqueuedLocalChunks, happ]
  · simp [enqueuedRemoteChunks, happ]

/-- Build used to witness C5: a graph with no initial chunk group. -/
def compC5w : Compilation :=
  { chunks := [ { name := some "main", files := ["index.bundle"] } ],
    chunkGroups := [ { isInitial := false, chunks := [0] } ] }

/-- Configuration for the C5 witness. -/
def cfgC5w : OutputPluginConfig := { platform := some "ios" }

/-- CLI descriptor for the C5 witness: a bundling command. -/
def cliC5w : CliOptions := { arguments := CliArguments.bundle }

/-- Witness for C5 on the `compC5w` build. -/
theorem c5_missing_entry_witness :
    (cfgC5w.devServerEnabled = false ∧ cliC5w.arguments = CliArguments.bundle ∧
      (findEntryGroup compC5w = none ∨
        ∃ g, findEntryGroup compC5w = some g ∧
          g.chunks.find? (fun i => (compC5w.chunk i).name == some (entryChunkName cfgC5w)) =
            none)) ∧
    (applyPlugin cfgC5w (some cliC5w) compC5w [("index.bundle", "CODE")] =
      some (Except.error "Cannot infer entry chunk - this should have not happened.") ∧
    finalAssets cfgC5w (some cliC5w) compC5w [("index.bundle", "CODE")] =
      [("index.bundle", "CODE")] ∧
    enqueuedLocalChunks cfgC5w (some cliC5w) compC5w [("index.bundle", "CODE")] = [] ∧
    enqueuedRemoteChunks cfgC5w (some cliC5w) compC5w [("index.bundle", "CODE")] = []) :=
  ⟨⟨by decide, by decide, Or.inl (by decide)⟩,
    c5_missing_entry cfgC5w cliC5w compC5w [("index.bundle", "CODE")]
      (by decide) (by decide) (Or.inl (by decide))⟩

/-! ### Claim C6: platform validation at construction -/

/-- Claim C6: constructing the plugin fails with the descriptive error exactly
when the platform option is missing or empty, and succeeds (returning the
configuration) exactly when the platform is a non-empty string. -/
theorem c6_platform_validation (cfg : OutputPluginConfig) :
    (constructOutputPlugin cfg =
        Except.error "Missing `platform` option in `OutputPlugin`" ↔
      (cfg.platform = none ∨ cfg.platform = some "")) ∧
    (constructOutputPlugin cfg = Except.ok cfg ↔
      ∃ p, cfg.platform = some p ∧ p ≠ "") := by
  cases h : cfg.platform with
  | none => simp [constructOutputPlugin, platformTruthy, h]
  | some p =>
    by_cases hp : p = ""
    · subst hp
      simp [constructOutputPlugin, platformTruthy, h]
    · simp [constructOutputPlugin, platformTruthy, h, hp]

/-! ### Claim C7: the bypass guard -/

/-- Claim C7: when the build-invocation descriptor is absent, or it carries a
`start` (non-bundling) command, or the development server is enabled, applying
the plugin does nothing: no processing result, an unchanged asset store, and
empty distribution queues. -/
theorem c7_bypass (cfg : OutputPluginConfig) (cli? : Option CliOptions)
    (comp : Compilation) (assets : List (String × String))
    (h : cli? = none ∨ (∃ o, cli? = some o ∧ o.arguments = CliArguments.start) ∨
      cfg.devServerEnabled = true) :
    applyPlugin cfg cli? comp assets = none ∧
    finalAssets cfg cli? comp assets = assets ∧
    enqueuedLocalChunks cfg cli? comp assets = [] ∧
    enqueuedRemoteChunks cfg cli? comp assets = [] := by
  have hb : shouldBypass cfg cli? = true := by
    rcases h with rfl | ⟨o, rfl, ho⟩ | hdev
    · rfl
    · simp [shouldBypass, ho]
    · cases cli? with
      | none => rfl
      | some o => simp [shouldBypass, hdev]
  have happ : applyPlugin cfg cli? comp assets = none := by
    simp [applyPlugin, hb]
  refine ⟨happ, ?_, ?_, ?_⟩
  · simp [finalAssets, happ]
  · simp [enqueuedLocalChunks, happ]
  · simp [enqueuedRemoteChunks, happ]

/-- Build used to witness C7. -/
def compC7w : Compilation :=
  { chunks := [ { name := some "main", files := ["index.bundle"] } ],
    chunkGroups := [ { isInitial := true, chunks := [0] } ] }

/-- Configuration for the C7 witness. -/
def cfgC7w : OutputPluginConfig := { platform := some "ios" }

/-- Witness for C7: with no CLI descriptor at all, the plugin is a no-op. -/
theorem c7_bypass_witness :
    ((none : Option CliOptions) = none ∨
      (∃ o, (none : Option CliOptions) = some o ∧ o.arguments = CliArguments.start) ∨
      cfgC7w.devServerEnabled = true) ∧
    (applyPlugin cfgC7w none compC7w [("index.bundle", "CODE")] = none ∧
    finalAssets cfgC7w none compC7w [("index.bundle", "CODE")] = [("index.bundle", "CODE")] ∧
    enqueuedLocalChunks cfgC7w none compC7w [("index.bundle", "CODE")] = [] ∧
    enqueuedRemoteChunks cfgC7w none compC7w [("index.bundle", "CODE")] = []) :=
  ⟨Or.inl rfl,
    c7_bypass cfgC7w none compC7w [("index.bundle", "CODE")] (Or.inl rfl)⟩

/-! ### Claim C8: manifest injection -/

/-- Claim C8: on a successful run, the manifest injection replaces exactly the
content of the entry chunk's first declared output file `f`, the new content
being the serialized declaration of the ordered local chunk identities,
followed by a newline, followed by the original content unchanged; every asset
with a different name is untouched. -/
theorem c8_manifest (cfg : OutputPluginConfig) (cli : CliOptions) (comp : Compilation)
    (assets : List (String × String)) (e : Nat) (f : String) (fs : List String)
    (hdev : cfg.devServerEnabled = false)
    (hargs : cli.arguments = CliArguments.bundle)
    (he : findEntryChunk comp (entryChunkName cfg) = some e)
    (hf : (comp.chunk e).files = f :: fs) :
    ∃ r : BuildOutcome,
      applyPlugin cfg (some cli) comp assets = some (Except.ok r) ∧
      r.locals = (classifyChunks cfg comp).1 ∧
      r.assets = assets.map (fun p =>
        if p.1 = f then
          (p.1, chunksDeclaration (r.locals.map fun c => chunkIdent (comp.chunk c)) ++
            "\n" ++ p.2)
        else p) ∧
      (∀ p ∈ assets, p.1 ≠ f → p ∈ r.assets) := by
  have hnb : shouldBypass cfg (some cli) = false := by
    simp [shouldBypass, hargs, hdev]
  have hhead : (comp.chunk e).files.head?.getD "" = f := by
    rw [hf]
    rfl
  refine ⟨{ locals := (classifyChunks cfg comp).1
            remotes := (classifyChunks cfg comp).2
            assets := updateAsset assets f (fun src =>
              chunksDeclaration ((classifyChunks cfg comp).1.map fun c =>
                chunkIdent (comp.chunk c)) ++ "\n" ++ src)
            localQueue := (classifyChunks cfg comp).1.map fun c =>
              { chunk := c, isEntry := c == e }
            remoteQueue :=
              if hasRemoteOutput cfg then
                (classifyChunks cfg comp).2.map fun c => { chunk := c, isEntry := false }
              else [] }, ?_, rfl, ?_, ?_⟩
  · simp [applyPlugin, hnb, he, hhead]
  · simp [updateAsset]
  · intro p hp hne
    simp only [updateAsset, List.mem_map]
    exact ⟨p, hp, by simp [hne]⟩

/-- Build used to witness C8: the spec §8 scenario with a two-asset store. -/
def compC8w : Compilation :=
  { chunks := [ { name := some "main", files := ["index.bundle"], allInitialChunks := [2] },
                { name := some "detail", files := ["detail.chunk.bundle"],
                  allInitialChunks := [2] },
                { name := some "vendor", files := ["vendor.chunk.bundle"] } ],
    chunkGroups := [ { isInitial := true, chunks := [0] } ] }

/-- Configuration for the C8 witness. -/
def cfgC8w : OutputPluginConfig :=
  { platform := some "ios", localChunks := [Rule.lit "detail"] }

/-- CLI descriptor for the C8 witness. -/
def cliC8w : CliOptions := { arguments := CliArguments.bundle }

/-- Asset store for the C8 witness. -/
def assetsC8w : List (String × String) :=
  [("index.bundle", "CODE"), ("vendor.chunk.bundle", "VENDOR")]

/-- Witness for C8 on the `compC8w` build. -/
theorem c8_manifest_witness :
    (cfgC8w.devServerEnabled = false ∧ cliC8w.arguments = CliArguments.bundle ∧
      findEntryChunk compC8w (entryChunkName cfgC8w) = some 0 ∧
      (compC8w.chunk 0).files = "index.bundle" :: []) ∧
    (∃ r : BuildOutcome,
      applyPlugin cfgC8w (some cliC8w) compC8w assetsC8w = some (Except.ok r) ∧
      r.locals = (classifyChunks cfgC8w compC8w).1 ∧
      r.assets = assetsC8w.map (fun p =>
        if p.1 = "index.bundle" then
          (p.1, chunksDeclaration (r.locals.map fun c => chunkIdent (compC8w.chunk c)) ++
            "\n" ++ p.2)
        else p) ∧
      (∀ p ∈ assetsC8w, p.1 ≠ "index.bundle" → p ∈ r.assets)) :=
  ⟨⟨by decide, by decide, by decide, by decide⟩,
    c8_manifest cfgC8w cliC8w compC8w assetsC8w 0 "index.bundle" []
      (by decide) (by decide) (by decide) (by decide)⟩

/-! ### Claim C9: no remote output directory configured -/

/-- Claim C9: when no remote-chunks output directory is configured, nothing is
enqueued for remote distribution (remote chunk files are left alone), while
every local chunk is still enqueued for local distribution, flagged as entry
exactly when it is the entry chunk. -/
theorem c9_no_remote_output (cfg : OutputPluginConfig) (cli : CliOptions)
    (comp : Compilation) (assets : List (String × String)) (e : Nat)
    (hdev : cfg.devServerEnabled = false)
    (hargs : cli.arguments = CliArguments.bundle)
    (hro : cfg.remoteChunksOutput = none)
    (he : findEntryChunk comp (entryChunkName cfg) = some e) :
    ∃ r : BuildOutcome,
      applyPlugin cfg (some cli) comp assets = some (Except.ok r) ∧
      r.remoteQueue = [] ∧
      r.localQueue.map (fun q => q.chunk) = r.locals ∧
      r.locals = (classifyChunks cfg comp).1 ∧
      (∀ q ∈ r.localQueue, (q.isEntry = true ↔ q.chunk = e)) := by
  have hnb : shouldBypass cfg (some cli) = false := by
    simp [shouldBypass, hargs, hdev]
  have hhr : hasRemoteOutput cfg = false := by
    simp [hasRemoteOutput, hro]
  refine ⟨{ locals := (classifyChunks cfg comp).1
            remotes := (classifyChunks cfg comp).2
            assets := updateAsset assets ((comp.chunk e).files.headD "") (fun src =>
              chunksDeclaration ((classifyChunks cfg comp).1.map fun c =>
                chunkIdent (comp.chunk c)) ++ "\n" ++ src)
            localQueue := (classifyChunks cfg comp).1.map fun c =>
              { chunk := c, isEntry := c == e }
            remoteQueue := [] }, ?_, rfl, ?_, rfl, ?_⟩
  · simp [applyPlugin, hnb, he, hhr]
  · rw [List.map_map]
    have h : ((fun q : EnqueuedChunk => q.chunk) ∘ fun c : Nat =>
        ({ chunk := c, isEntry := c == e } : EnqueuedChunk)) = id := rfl
    rw [h, List.map_id]
  · intro q hq
    simp only [List.mem_map] at hq
    obtain ⟨c, _, rfl⟩ := hq
    simp [Nat.beq_eq_true_eq]

/-- Build used to witness C9. -/
def compC9w : Compilation :=
  { chunks := [ { name := some "main", files := ["index.bundle"] },
                { name := some "b", files := ["b.chunk.bundle"] } ],
    chunkGroups := [ { isInitial := true, chunks := [0] } ] }

/-- Configuration for the C9 witness: no remote output directory. -/
def cfgC9w : OutputPluginConfig := { platform := some "ios" }

/-- CLI descriptor for the C9 witness. -/
def cliC9w : CliOptions := { arguments := CliArguments.bundle }

/-- Witness for C9 on the `compC9w` build. -/
theorem c9_no_remote_output_witness :
    (cfgC9w.devServerEnabled = false ∧ cliC9w.arguments = CliArguments.bundle ∧
      cfgC9w.remoteChunksOutput = none ∧
      findEntryChunk compC9w (entryChunkName cfgC9w) = some 0) ∧
    (∃ r : BuildOutcome,
      applyPlugin cfgC9w (some cliC9w) compC9w [("index.bundle", "CODE")] =
        some (Except.ok r) ∧
      r.remoteQueue = [] ∧
      r.localQueue.map (fun q => q.chunk) = r.locals ∧
      r.locals = (classifyChunks cfgC9w compC9w).1 ∧
      (∀ q ∈ r.localQueue, (q.isEntry = true ↔ q.chunk = 0))) :=
  ⟨⟨by decide, by decide, by decide, by decide⟩,
    c9_no_remote_output cfgC9w cliC9w compC9w [("index.bundle", "CODE")] 0
      (by decide) (by decide) (by decide) (by decide)⟩

/-! ### Claim C10: unconfigured rules default everything but the entry to remote -/

/-- Claim C10: with `localChunks` unconfigured the matcher is evaluated with an
empty rule list and matches no identity; hence, in a graph where no chunk's
initial closure contains another chunk, every chunk other than the entry chunk
is classified remote (and not local). -/
theorem c10_unconfigured_rules (cfg : OutputPluginConfig) (comp : Compilation) (i : Nat)
    (hrules : cfg.localChunks = [])
    (hclosure : ∀ j, j < comp.chunks.length → ∀ k ∈ (comp.chunk j).allInitialChunks, k = j)
    (hn : i < comp.chunks.length)
    (hi : findEntryChunk comp (entryChunkName cfg) ≠ some i) :
    (∀ ident, isLocalChunk cfg.localChunks ident = false) ∧
    i ∈ (classifyChunks cfg comp).2 ∧ i ∉ (classifyChunks cfg comp).1 := by
  have hmatch : ∀ ident, isLocalChunk cfg.localChunks ident = false := by
    intro ident
    cases ident with
    | none => rfl
    | some s => simp [isLocalChunk, hrules]
  have hst : initialState cfg comp =
      List.foldl (classifyStep cfg comp (findEntryChunk comp (entryChunkName cfg))) {}
        (List.range comp.chunks.length) := rfl
  have hshared : (initialState cfg comp).shared = [] := by
    rw [hst]
    refine foldl_classifyStep_shared_empty cfg comp _ _ ?_ {} rfl
    intro j hj
    exact hclosure j (List.mem_range.mp hj)
  have hfinal : classifyChunks cfg comp =
      ((initialState cfg comp).locals, (initialState cfg comp).remotes) := by
    have h0 : classifyChunks cfg comp =
        List.foldl (sharedStep cfg comp)
          ((initialState cfg comp).locals, (initialState cfg comp).remotes)
          (initialState cfg comp).shared := rfl
    rw [h0, hshared]
    rfl
  have hsl : i ∉ (initialState cfg comp).locals := by
    intro hmem
    rw [hst] at hmem
    rcases foldl_classifyStep_locals_mem cfg comp _ _ {} i hmem with h | h | h
    · cases h
    · exact hi h
    · rw [hmatch (chunkIdent (comp.chunk i))] at h
      cases h
  have h3 := foldl_classifyStep_mem cfg comp (findEntryChunk comp (entryChunkName cfg))
    (List.range comp.chunks.length) {} i (List.mem_range.mpr hn)
  rw [← hst] at h3
  refine ⟨hmatch, ?_, ?_⟩
  · rw [hfinal]
    rcases h3 with h | h | h
    · exact absurd h hsl
    · exact h
    · rw [hshared] at h
      cases h
  · rw [hfinal]
    exact hsl

/-- Build used to witness C10: entry `main` plus an unrelated chunk `b`, no
closures, no rules. -/
def compC10w : Compilation :=
  { chunks := [ { name := some "main", files := ["index.bundle"] },
                { name := some "b", files := ["b.chunk.bundle"] } ],
    chunkGroups := [ { isInitial := true, chunks := [0] } ] }

/-- Configuration for the C10 witness: `localChunks` left unconfigured. -/
def cfgC10w : OutputPluginConfig := { platform := some "ios" }

/-- Witness for C10 on the `compC10w` build. -/
theorem c10_unconfigured_rules_witness :
    (cfgC10w.localChunks = [] ∧
      (∀ j, j < compC10w.chunks.length →
        ∀ k ∈ (compC10w.chunk j).allInitialChunks, k = j) ∧
      1 < compC10w.chunks.length ∧
      findEntryChunk compC10w (entryChunkName cfgC10w) ≠ some 1) ∧
    ((∀ ident, isLocalChunk cfgC10w.localChunks ident = false) ∧
      1 ∈ (classifyChunks cfgC10w compC10w).2 ∧ 1 ∉ (classifyChunks cfgC10w compC10w).1) :=
  ⟨⟨rfl, by decide, by decide, by decide⟩,
    c10_unconfigured_rules cfgC10w compC10w 1 rfl (by decide) (by decide) (by decide)⟩

end Repack
